import Mathlib

/-!
Verification of the career-planning wealth calculator
(`src/wealth_calculator.py`): the tiered tax-bracket evaluator and the
year-by-year wealth simulator.

Modelling conventions:
* Python `float` values are modelled as rationals (`ℚ`); the spec and the
  code treat them as real numbers.
* A bracket's `upper_limit` may be `float('inf')`; we model the limit as
  `Option ℚ`, with `none` standing for `+∞`.  The arithmetic the source
  performs on limits (`bracket.upper_limit - prev_bracket_limit`, and
  `min(remaining_income, ...)`) is reproduced case by case, following IEEE
  semantics of `inf` and Python's `min`:
  - `min(r, inf - p) = r` for finite `p`, and `min(r, inf - inf) = min(r, nan)
    = r` (Python's `min` returns its first argument when the comparison with
    `nan` is false), so an infinite bracket always absorbs all remaining
    income;
  - `min(r, u - inf) = min(r, -inf) = -inf ≤ 0` for finite `u`, so a finite
    bracket after an infinite one always breaks the loop.
* Python `dict[int, dict]` history maps are modelled as association lists in
  insertion order; `d[k] = v` replaces in place when `k` is present and
  appends otherwise, exactly like a Python dict.
* The heterogeneous dict values of `to_dict` / `year_details` are modelled by
  the sum type `PyVal`.
* `WealthCalculator.simulate_year` mutates `self` and returns a float; it is
  modelled as a function from the old state to (new state, returned value).
  The source only reads its `comp` argument (field accesses and `to_dict`),
  so a pure embedding is faithful.
-/

/-- A heterogeneous Python dict value: a string, a number, or an optional
string (the `comment` field). -/
inductive PyVal where
  | str : String → PyVal
  | num : ℚ → PyVal
  | optStr : Option String → PyVal
deriving DecidableEq, Repr

/-- Model of `TaxBracket` from `wealth_calculator.py`: `upper_limit` is a float that
may be `inf` (modelled by `none`), `rate` a decimal. -/
structure TaxBracket where
  upper_limit : Option ℚ
  rate : ℚ
deriving DecidableEq, Repr

/-- Alias mirroring `TaxSchedule = list[TaxBracket]`. -/
abbrev TaxSchedule := List TaxBracket

/-- The bracket-walking loop of `TaxManager.get_effective_tax_rate`
(lines 54–64): arguments are the brackets still to visit, `total_tax`,
`prev_bracket_limit` (`none` = `inf`, possible only after an infinite
bracket), and `remaining_income`.  Each case mirrors one loop iteration:
`taxable_in_bracket = min(remaining_income, bracket.upper_limit -
prev_bracket_limit)`, break on `taxable_in_bracket <= 0`, otherwise
accumulate and continue. -/
def tax_loop : List TaxBracket → ℚ → Option ℚ → ℚ → ℚ
  | [], total_tax, _, _ => total_tax
  | bracket :: rest, total_tax, prev_bracket_limit, remaining_income =>
    match bracket.upper_limit, prev_bracket_limit with
    | none, _ =>
        -- taxable = min(remaining, inf - prev) = remaining
        if remaining_income ≤ 0 then total_tax
        else tax_loop rest (total_tax + remaining_income * bracket.rate) none
          (remaining_income - remaining_income)
    | some _, none =>
        -- taxable = min(remaining, u - inf) = -inf ≤ 0: break
        total_tax
    | some u, some p =>
        let taxable := min remaining_income (u - p)
        if taxable ≤ 0 then total_tax
        else tax_loop rest (total_tax + taxable * bracket.rate) (some u)
          (remaining_income - taxable)

/-- Model of `TaxManager` from `wealth_calculator.py`. -/
structure TaxManager where
  tax_location : String
  income_tax_schedules : List TaxSchedule
deriving DecidableEq, Repr

/-- Model of `TaxManager.get_effective_tax_rate` (lines 38–66): run the bracket loop
starting from `total_tax = 0.0`, `prev_bracket_limit = 0.0`,
`remaining_income = income`, then `return total_tax / income if income > 0
else 0.0`. -/
def TaxManager.get_effective_tax_rate (income : ℚ) (tax_schedule : TaxSchedule) : ℚ :=
  let total_tax := tax_loop tax_schedule 0 (some 0) income
  if 0 < income then total_tax / income else 0

/-- Model of `TaxManager.get_income_tax_rate` (lines 68–87): sum the effective rate of
each schedule, starting from `effective_tax_rate = 0`. -/
def TaxManager.get_income_tax_rate (self : TaxManager) (income : ℚ) : ℚ :=
  self.income_tax_schedules.foldl
    (fun effective_tax_rate tax_schedule =>
      effective_tax_rate + TaxManager.get_effective_tax_rate income tax_schedule)
    0

/-- Model of `CompensationPackage` from `wealth_calculator.py` (defaults: bonus 0,
retirement match 0, rsu grant 0, income adjustment 0, comment None). -/
structure CompensationPackage where
  company : String
  title : String
  salary : ℚ
  tax_manager : TaxManager
  bonus : ℚ := 0
  retirement_match_percentage : ℚ := 0
  rsu_grant : ℚ := 0
  income_adjustment : ℚ := 0
  comment : Option String := none
deriving DecidableEq, Repr

/-- Model of `CompensationPackage.to_dict` (lines 125–151), as the ordered key/value
list of the Python dict it builds. -/
def CompensationPackage.to_dict (self : CompensationPackage) : List (String × PyVal) :=
  let gross_income := self.salary + self.bonus + self.rsu_grant
  let effective_tax_rate := self.tax_manager.get_income_tax_rate gross_income
  [("Company", .str self.company),
   ("Title", .str self.title),
   ("Location", .str self.tax_manager.tax_location),
   ("Salary", .num self.salary),
   ("Bonus", .num self.bonus),
   ("Retirement Match %", .num self.retirement_match_percentage),
   ("RSU Grant", .num self.rsu_grant),
   ("Effective Tax Rate", .num effective_tax_rate),
   ("Income Adjustment", .num self.income_adjustment),
   ("Comment", .optStr self.comment)]

/-- Python dict assignment `d[k] = v` on an insertion-ordered association
list: replace in place when the key is present, append otherwise. -/
def dict_set {α : Type} : List (Int × α) → Int → α → List (Int × α)
  | [], k, v => [(k, v)]
  | (k', v') :: rest, k, v =>
      if k' = k then (k, v) :: rest else (k', v') :: dict_set rest k v

/-- Python dict lookup `d[k]` on an insertion-ordered association list. -/
def dict_get {α : Type} : List (Int × α) → Int → Option α
  | [], _ => none
  | (k', v') :: rest, k => if k' = k then some v' else dict_get rest k

/-- Python dict lookup on a string-keyed association list (used to read the
fields of a recorded snapshot). -/
def sdict_get : List (String × PyVal) → String → Option PyVal
  | [], _ => none
  | (k', v') :: rest, k => if k' = k then some v' else sdict_get rest k

/-- The mutable state of a `WealthCalculator` (lines 165–170). -/
structure WealthCalculator where
  current_wealth : ℚ
  year : Int
  annual_history : List (Int × List (String × PyVal))
  compensation_history : List (Int × List (String × PyVal))
  assumed_real_market_growth : ℚ
deriving DecidableEq, Repr

/-- Model of `WealthCalculator.__init__` (lines 165–170): empty histories; the Python
defaults are `initial_wealth=0, year=0, assumed_real_market_growth=0.07`. -/
def WealthCalculator.init (initial_wealth : ℚ) (year : Int)
    (assumed_real_market_growth : ℚ) : WealthCalculator :=
  { current_wealth := initial_wealth
    year := year
    annual_history := []
    compensation_history := []
    assumed_real_market_growth := assumed_real_market_growth }

/-- Model of `WealthCalculator.simulate_year` (lines 172–251) as a pure state
transformer: returns the new state and the returned wealth.  Every `let`
mirrors one assignment of the source, in order; the `year_details` entries
read from `comp_details` (`Company`, `Title`, `Location`, `Comment`) are
written out as the values `to_dict` stores under those keys. -/
def WealthCalculator.simulate_year (self : WealthCalculator)
    (comp : CompensationPackage) : WealthCalculator × ℚ :=
  let gross_income := comp.salary + comp.bonus + comp.rsu_grant
  let income_tax_rate := comp.tax_manager.get_income_tax_rate gross_income
  let net_salary := comp.salary * (1 - income_tax_rate)
  let net_bonus := comp.bonus * (1 - income_tax_rate)
  let net_rsus := comp.rsu_grant * (1 - income_tax_rate)
  let retirement_match := comp.salary * comp.retirement_match_percentage
  let total_tax_burden := gross_income * income_tax_rate
  let net_income := net_salary + net_bonus + net_rsus + retirement_match
    + comp.income_adjustment
  let unrealized_investment_gain := self.current_wealth * self.assumed_real_market_growth
  let wealth_after_growth := self.current_wealth + unrealized_investment_gain
  let wealth_after_income := wealth_after_growth + net_income
  let comp_details := comp.to_dict
  let year_details : List (String × PyVal) :=
    [("Company", .str comp.company),
     ("Title", .str comp.title),
     ("Location", .str comp.tax_manager.tax_location),
     ("Comment", .optStr comp.comment),
     ("Gross Salary", .num comp.salary),
     ("Gross Bonus", .num comp.bonus),
     ("Gross RSUs", .num comp.rsu_grant),
     ("Retirement Match %", .num comp.retirement_match_percentage),
     ("Gross Income", .num gross_income),
     ("Effective Tax Rate", .num income_tax_rate),
     ("Total Tax Burden", .num total_tax_burden),
     ("Net Salary", .num net_salary),
     ("Net Bonus", .num net_bonus),
     ("Net RSUs", .num net_rsus),
     ("Retirement Match", .num retirement_match),
     ("Income Adjustment", .num comp.income_adjustment),
     ("Net Income", .num net_income),
     ("Unrealized Investment Gain", .num unrealized_investment_gain),
     ("Total Earned Wealth", .num wealth_after_income)]
  let state' : WealthCalculator :=
    { current_wealth := wealth_after_income
      year := self.year + 1
      annual_history := dict_set self.annual_history self.year year_details
      compensation_history := dict_set self.compensation_history self.year comp_details
      assumed_real_market_growth := self.assumed_real_market_growth }
  (state', wealth_after_income)

/-- Driving the simulator forward over a list of yearly compensation
packages (the caller's loop). -/
def simulate_years (wc : WealthCalculator) : List CompensationPackage → WealthCalculator
  | [] => wc
  | comp :: rest => simulate_years (wc.simulate_year comp).1 rest

/-! ### Basic lemmas about the bracket loop -/

/-- The `total_tax` accumulator of the loop is additive: running the loop
with accumulator `t` adds `t` to the result of running it from `0`. -/
theorem tax_loop_acc (bs : List TaxBracket) (t : ℚ) (p : Option ℚ) (rem : ℚ) :
    tax_loop bs t p rem = t + tax_loop bs 0 p rem := by
  induction bs generalizing t p rem with
  | nil => simp [tax_loop]
  | cons b rest ih =>
    rcases b with ⟨u, r⟩
    rcases u with _ | u
    · by_cases h : rem ≤ 0
      · simp [tax_loop, h]
      · simp only [tax_loop, if_neg h]
        rw [ih, ih (0 + rem * r)]
        ring
    · rcases p with _ | p
      · simp [tax_loop]
      · simp only [tax_loop]
        by_cases h : min rem (u - p) ≤ 0
        · simp [h]
        · simp only [if_neg h]
          rw [ih, ih (0 + min rem (u - p) * r)]
          ring

/-- With no income left (or negative income) the loop breaks immediately and
returns its accumulator. -/
theorem tax_loop_nonpos (bs : List TaxBracket) (t : ℚ) (p : Option ℚ) (rem : ℚ)
    (h : rem ≤ 0) : tax_loop bs t p rem = t := by
  cases bs with
  | nil => rfl
  | cons b rest =>
    rcases b with ⟨u, r⟩
    rcases u with _ | u
    · simp [tax_loop, h]
    · rcases p with _ | p
      · simp [tax_loop]
      · have : min rem (u - p) ≤ 0 := le_trans (min_le_left _ _) h
        simp [tax_loop, this]

/-- One step of the loop on a finite bracket, with the accumulator pulled
out. -/
theorem tax_loop_cons_fin (u r : ℚ) (bs : List TaxBracket) (p rem : ℚ) :
    tax_loop (⟨some u, r⟩ :: bs) 0 (some p) rem =
      if min rem (u - p) ≤ 0 then 0
      else min rem (u - p) * r + tax_loop bs 0 (some u) (rem - min rem (u - p)) := by
  simp only [tax_loop]
  split_ifs with h
  · rfl
  · rw [tax_loop_acc]; ring

/-- One step of the loop on an infinite bracket: it absorbs all remaining
income and the loop ends (the next bracket, if any, breaks at once). -/
theorem tax_loop_cons_inf (r : ℚ) (bs : List TaxBracket) (p : Option ℚ) (rem : ℚ) :
    tax_loop (⟨none, r⟩ :: bs) 0 p rem = if rem ≤ 0 then 0 else rem * r := by
  simp only [tax_loop]
  split_ifs with h
  · rfl
  · rw [tax_loop_nonpos bs (0 + rem * r) none (rem - rem) (by simp)]; ring

/-- Value of the loop when all the income fits in the first (finite)
bracket. -/
theorem tax_loop_fin_low {u r p z : ℚ} (bs : List TaxBracket)
    (hz : 0 ≤ z) (hzw : z ≤ u - p) :
    tax_loop (⟨some u, r⟩ :: bs) 0 (some p) z = z * r := by
  rw [tax_loop_cons_fin, min_eq_left hzw]
  split_ifs with h
  · have hz0 : z = 0 := le_antisymm h hz
    simp [hz0]
  · rw [sub_self, tax_loop_nonpos bs 0 (some u) 0 le_rfl]; ring

/-- Value of the loop when the income fills the first (finite) bracket: the
bracket's width is taxed at its rate and the rest is passed on. -/
theorem tax_loop_fin_high {u r p z : ℚ} (bs : List TaxBracket)
    (hw : 0 < u - p) (hz : u - p ≤ z) :
    tax_loop (⟨some u, r⟩ :: bs) 0 (some p) z =
      (u - p) * r + tax_loop bs 0 (some u) (z - (u - p)) := by
  rw [tax_loop_cons_fin, min_eq_right hz, if_neg (not_le.mpr hw)]

/-- Value of the loop on a leading infinite bracket at non-negative
income. -/
theorem tax_loop_inf_val {r z : ℚ} (bs : List TaxBracket) (p : Option ℚ)
    (hz : 0 ≤ z) : tax_loop (⟨none, r⟩ :: bs) 0 p z = z * r := by
  rw [tax_loop_cons_inf]
  split_ifs with h
  · have hz0 : z = 0 := le_antisymm h hz
    simp [hz0]
  · rfl

/-! ### Progressive schedules and monotonicity of the effective rate -/

/-- A progressive tail of a schedule, starting after previous limit `p`,
with every rate at least `c`: marginal rates are non-decreasing across
brackets, upper limits strictly increase, and the final bracket is
infinite.  `Progressive 0 0 sched` says `sched` is a well-formed
progressive schedule with non-negative rates. -/
inductive Progressive : ℚ → ℚ → List TaxBracket → Prop
  | last (p c r : ℚ) : c ≤ r → Progressive p c [⟨none, r⟩]
  | cons (p c u r : ℚ) (bs : List TaxBracket) :
      c ≤ r → p < u → Progressive u r bs → Progressive p c (⟨some u, r⟩ :: bs)

/-- On a progressive tail with rates at least `c`, the total tax grows at
least linearly with slope `c`: `T(b) - T(a) ≥ (b - a) * c`. -/
theorem tax_loop_incr {p c : ℚ} {bs : List TaxBracket} (hp : Progressive p c bs) :
    ∀ a b : ℚ, 0 ≤ a → a ≤ b →
      (b - a) * c ≤ tax_loop bs 0 (some p) b - tax_loop bs 0 (some p) a := by
  induction hp with
  | last p c r hcr =>
    intro a b ha hab
    rw [tax_loop_inf_val _ _ (ha.trans hab), tax_loop_inf_val _ _ ha]
    nlinarith [mul_nonneg (sub_nonneg.mpr hab) (sub_nonneg.mpr hcr)]
  | cons p c u r bs hcr hpu htail ih =>
    intro a b ha hab
    have hw : 0 < u - p := by linarith
    have hb0 : 0 ≤ b := ha.trans hab
    rcases le_total b (u - p) with hbw | hbw
    · rw [tax_loop_fin_low bs hb0 hbw, tax_loop_fin_low bs ha (hab.trans hbw)]
      nlinarith [mul_nonneg (sub_nonneg.mpr hab) (sub_nonneg.mpr hcr)]
    · rcases le_total a (u - p) with haw | haw
      · rw [tax_loop_fin_high bs hw hbw, tax_loop_fin_low bs ha haw]
        have hlb := ih 0 (b - (u - p)) le_rfl (by linarith)
        rw [tax_loop_nonpos bs 0 (some u) 0 le_rfl] at hlb
        nlinarith [mul_nonneg (sub_nonneg.mpr hab) (sub_nonneg.mpr hcr)]
      · rw [tax_loop_fin_high bs hw hbw, tax_loop_fin_high bs hw haw]
        have hincr := ih (a - (u - p)) (b - (u - p)) (by linarith) (by linarith)
        nlinarith [mul_nonneg (sub_nonneg.mpr hab) (sub_nonneg.mpr hcr)]

/-- On a progressive tail, the total tax is superlinear:
`b * T(a) ≤ a * T(b)` for `0 ≤ a ≤ b`.  Dividing by `a * b` this says the
average rate `T(x)/x` is non-decreasing. -/
theorem tax_loop_superlinear {p c : ℚ} {bs : List TaxBracket} (hp : Progressive p c bs) :
    ∀ a b : ℚ, 0 ≤ a → a ≤ b →
      b * tax_loop bs 0 (some p) a ≤ a * tax_loop bs 0 (some p) b := by
  induction hp with
  | last p c r hcr =>
    intro a b ha hab
    rw [tax_loop_inf_val _ _ ha, tax_loop_inf_val _ _ (ha.trans hab)]
    exact le_of_eq (by ring)
  | cons p c u r bs hcr hpu htail ih =>
    intro a b ha hab
    have hw : 0 < u - p := by linarith
    have hb0 : 0 ≤ b := ha.trans hab
    rcases le_total b (u - p) with hbw | hbw
    · rw [tax_loop_fin_low bs ha (hab.trans hbw), tax_loop_fin_low bs hb0 hbw]
      exact le_of_eq (by ring)
    · rcases le_total a (u - p) with haw | haw
      · rw [tax_loop_fin_low bs ha haw, tax_loop_fin_high bs hw hbw]
        have hlb := tax_loop_incr htail 0 (b - (u - p)) le_rfl (by linarith)
        rw [tax_loop_nonpos bs 0 (some u) 0 le_rfl] at hlb
        nlinarith [mul_le_mul_of_nonneg_left hlb ha]
      · rw [tax_loop_fin_high bs hw haw, tax_loop_fin_high bs hw hbw]
        have hsl := ih (a - (u - p)) (b - (u - p)) (by linarith) (by linarith)
        have hincr := tax_loop_incr htail (a - (u - p)) (b - (u - p))
          (by linarith) (by linarith)
        nlinarith [hsl, mul_le_mul_of_nonneg_left hincr hw.le]

/-- C3: for every fixed well-formed schedule whose marginal rates are
non-decreasing across brackets (`Progressive 0 0`), `get_effective_tax_rate`
is monotone non-decreasing in income: `0 ≤ x ≤ y` implies the effective rate
at `x` is at most the effective rate at `y`. -/
theorem claim_C3_effective_rate_monotone (sched : TaxSchedule)
    (hp : Progressive 0 0 sched) (x y : ℚ) (hx : 0 ≤ x) (hxy : x ≤ y) :
    TaxManager.get_effective_tax_rate x sched ≤
      TaxManager.get_effective_tax_rate y sched := by
  simp only [TaxManager.get_effective_tax_rate]
  by_cases hx0 : 0 < x
  · have hy0 : 0 < y := lt_of_lt_of_le hx0 hxy
    rw [if_pos hx0, if_pos hy0, div_le_div_iff₀ hx0 hy0]
    nlinarith [tax_loop_superlinear hp x y hx hxy]
  · rw [if_neg hx0]
    by_cases hy0 : 0 < y
    · rw [if_pos hy0]
      have h0 := tax_loop_incr hp 0 y le_rfl hy0.le
      rw [tax_loop_nonpos sched 0 (some 0) 0 le_rfl] at h0
      apply div_nonneg _ hy0.le
      nlinarith [h0]
    · rw [if_neg hy0]

/-- Witness for C3 at a concrete progressive schedule and incomes. -/
theorem claim_C3_witness :
    Progressive 0 0 [⟨some 11925, 10/100⟩, ⟨some 48475, 12/100⟩, ⟨none, 22/100⟩]
    ∧ (0 : ℚ) ≤ 10000 ∧ (10000 : ℚ) ≤ 50000
    ∧ TaxManager.get_effective_tax_rate 10000
        [⟨some 11925, 10/100⟩, ⟨some 48475, 12/100⟩, ⟨none, 22/100⟩] ≤
      TaxManager.get_effective_tax_rate 50000
        [⟨some 11925, 10/100⟩, ⟨some 48475, 12/100⟩, ⟨none, 22/100⟩] := by
  have hp : Progressive 0 0
      [⟨some 11925, 10/100⟩, ⟨some 48475, 12/100⟩, ⟨none, 22/100⟩] := by
    refine Progressive.cons _ _ _ _ _ (by norm_num) (by norm_num)
      (Progressive.cons _ _ _ _ _ (by norm_num) (by norm_num)
        (Progressive.last _ _ _ (by norm_num)))
  exact ⟨hp, by norm_num, by norm_num,
    claim_C3_effective_rate_monotone _ hp 10000 50000 (by norm_num) (by norm_num)⟩

/-! ### Bounds on the effective rate -/

/-- With all rates in `[0, 1]`, the accumulated tax lies between `0` and the
remaining income (clamped at `0`).  This needs no structural assumption on
the schedule at all. -/
theorem tax_loop_bounds (bs : List TaxBracket)
    (hr : ∀ b ∈ bs, 0 ≤ b.rate ∧ b.rate ≤ 1) :
    ∀ (p : Option ℚ) (rem : ℚ),
      0 ≤ tax_loop bs 0 p rem ∧ tax_loop bs 0 p rem ≤ max rem 0 := by
  induction bs with
  | nil => intro p rem; simp [tax_loop, le_max_right]
  | cons b rest ih =>
    intro p rem
    obtain ⟨hb0, hb1⟩ := hr b (List.mem_cons_self b rest)
    have hr' : ∀ b ∈ rest, 0 ≤ b.rate ∧ b.rate ≤ 1 :=
      fun x hx => hr x (List.mem_cons_of_mem b hx)
    rcases b with ⟨u, r⟩
    rcases u with _ | u
    · rw [tax_loop_cons_inf]
      split_ifs with h
      · simp [le_max_right]
      · push_neg at h
        constructor
        · nlinarith
        · rw [max_eq_left h.le]
          nlinarith
    · rcases p with _ | p
      · simp only [tax_loop]
        simp [le_max_right]
      · rw [tax_loop_cons_fin]
        split_ifs with h
        · simp [le_max_right]
        · push_neg at h
          have hmr : min rem (u - p) ≤ rem := min_le_left _ _
          obtain ⟨ih0, ih1⟩ := ih hr' (some u) (rem - min rem (u - p))
          have hmax : max (rem - min rem (u - p)) 0 = rem - min rem (u - p) :=
            max_eq_left (by linarith)
          rw [hmax] at ih1
          constructor
          · nlinarith
          · rw [max_eq_left (by linarith : (0:ℚ) ≤ rem)]
            nlinarith

/-- Structural well-formedness of a schedule tail as the spec's data-model
section states it: upper limits strictly increase from the previous limit
`p`, and the final bracket's limit is infinite.  (No constraint on rates;
those are stated separately.) -/
inductive WellFormedFrom : ℚ → List TaxBracket → Prop
  | last (p r : ℚ) : WellFormedFrom p [⟨none, r⟩]
  | cons (p u r : ℚ) (bs : List TaxBracket) :
      p < u → WellFormedFrom u bs → WellFormedFrom p (⟨some u, r⟩ :: bs)

/-- C5 (amended): for every non-negative income and every well-formed
schedule (strictly increasing upper limits, final limit infinite, every rate
in `[0,1]`), `get_effective_tax_rate` returns a value in the closed interval
`[0, 1]`.  (The original half-open `[0,1)` fails when a rate equals `1`.) -/
theorem claim_C5_effective_rate_in_unit (sched : TaxSchedule) (income : ℚ)
    (hinc : 0 ≤ income) (_hwf : WellFormedFrom 0 sched)
    (hr : ∀ b ∈ sched, 0 ≤ b.rate ∧ b.rate ≤ 1) :
    0 ≤ TaxManager.get_effective_tax_rate income sched ∧
      TaxManager.get_effective_tax_rate income sched ≤ 1 := by
  simp only [TaxManager.get_effective_tax_rate]
  split_ifs with h
  · obtain ⟨h0, h1⟩ := tax_loop_bounds sched hr (some 0) income
    rw [max_eq_left hinc] at h1
    exact ⟨div_nonneg h0 hinc, by rw [div_le_one h]; exact h1⟩
  · norm_num

/-- Counterexample to C5 as stated: the single infinite bracket at rate `1`
is well-formed with rates in `[0,1]`, yet the effective rate at income `1`
is exactly `1`, which is not in the half-open interval `[0, 1)`. -/
theorem claim_C5_counterexample :
    WellFormedFrom 0 [⟨none, 1⟩]
    ∧ (∀ b ∈ ([⟨none, 1⟩] : TaxSchedule), 0 ≤ b.rate ∧ b.rate ≤ 1)
    ∧ (0 : ℚ) ≤ 1
    ∧ TaxManager.get_effective_tax_rate 1 [⟨none, 1⟩] = 1
    ∧ ¬ TaxManager.get_effective_tax_rate 1 [⟨none, 1⟩] < 1 := by
  refine ⟨WellFormedFrom.last _ _, ?_, by norm_num, ?_, ?_⟩
  · intro b hb
    simp only [List.mem_singleton] at hb
    subst hb
    norm_num
  · norm_num [TaxManager.get_effective_tax_rate, tax_loop]
  · norm_num [TaxManager.get_effective_tax_rate, tax_loop]

/-- Witness for the amended C5 at a concrete schedule and income. -/
theorem claim_C5_witness :
    (0 : ℚ) ≤ 50000
    ∧ WellFormedFrom 0 [⟨some 11925, 10/100⟩, ⟨some 48475, 12/100⟩, ⟨none, 22/100⟩]
    ∧ (∀ b ∈ ([⟨some 11925, 10/100⟩, ⟨some 48475, 12/100⟩, ⟨none, 22/100⟩] : TaxSchedule),
        0 ≤ b.rate ∧ b.rate ≤ 1)
    ∧ 0 ≤ TaxManager.get_effective_tax_rate 50000
        [⟨some 11925, 10/100⟩, ⟨some 48475, 12/100⟩, ⟨none, 22/100⟩]
    ∧ TaxManager.get_effective_tax_rate 50000
        [⟨some 11925, 10/100⟩, ⟨some 48475, 12/100⟩, ⟨none, 22/100⟩] ≤ 1 := by
  have hwf : WellFormedFrom 0 [⟨some 11925, 10/100⟩, ⟨some 48475, 12/100⟩, ⟨none, 22/100⟩] :=
    WellFormedFrom.cons _ _ _ _ (by norm_num)
      (WellFormedFrom.cons _ _ _ _ (by norm_num) (WellFormedFrom.last _ _))
  have hr : ∀ b ∈ ([⟨some 11925, 10/100⟩, ⟨some 48475, 12/100⟩, ⟨none, 22/100⟩] : TaxSchedule),
      0 ≤ b.rate ∧ b.rate ≤ 1 := by
    intro b hb
    simp only [List.mem_cons, List.not_mem_nil, or_false] at hb
    rcases hb with h | h | h <;> subst h <;> norm_num
  obtain ⟨h0, h1⟩ := claim_C5_effective_rate_in_unit _ 50000 (by norm_num) hwf hr
  exact ⟨by norm_num, hwf, hr, h0, h1⟩

/-- C6: for every schedule, the effective rate at income `0` is `0` (the
guard `income > 0` avoids the division by zero). -/
theorem claim_C6_zero_income (sched : TaxSchedule) :
    TaxManager.get_effective_tax_rate 0 sched = 0 := by
  simp [TaxManager.get_effective_tax_rate]

/-- C4: on the federal-only schedule
`[(11925, 0.10), (48475, 0.12), (inf, 0.22)]` at income `50000`, the
effective rate is exactly `5914 / 50000 = 0.11828`. -/
theorem claim_C4_concrete_effective_rate :
    TaxManager.get_effective_tax_rate 50000
      [⟨some 11925, 10/100⟩, ⟨some 48475, 12/100⟩, ⟨none, 22/100⟩] = 5914 / 50000 := by
  norm_num [TaxManager.get_effective_tax_rate, tax_loop, min_def]

/-! ### Schedules that end at a finite limit (C8) -/

/-- A schedule tail whose upper limits strictly increase from `p` and whose
final bracket has the *finite* upper limit `L` (a malformed schedule per the
spec's data model). -/
inductive FiniteIncrTo : ℚ → List TaxBracket → ℚ → Prop
  | single (p r L : ℚ) : p < L → FiniteIncrTo p [⟨some L, r⟩] L
  | cons (p u r L : ℚ) (bs : List TaxBracket) :
      p < u → FiniteIncrTo u bs L → FiniteIncrTo p (⟨some u, r⟩ :: bs) L

/-- The previous limit is below the final limit. -/
theorem FiniteIncrTo.lt {p L : ℚ} {bs : List TaxBracket}
    (h : FiniteIncrTo p bs L) : p < L := by
  induction h with
  | single p r L hpL => exact hpL
  | cons p u r L bs hpu htail ih => linarith

/-- On a finite-ending schedule, any two incomes covering all the brackets
produce the same total tax: income beyond the final limit is never taxed. -/
theorem tax_loop_finite_saturates {p L : ℚ} {bs : List TaxBracket}
    (h : FiniteIncrTo p bs L) :
    ∀ t x y : ℚ, L - p ≤ x → L - p ≤ y →
      tax_loop bs t (some p) x = tax_loop bs t (some p) y := by
  induction h with
  | single p r L hpL =>
    intro t x y hx hy
    have hw : 0 < L - p := by linarith
    simp only [tax_loop, min_eq_right hx, min_eq_right hy,
      if_neg (not_le.mpr hw)]
  | cons p u r L bs hpu htail ih =>
    intro t x y hx hy
    have huL : u < L := htail.lt
    have hw : 0 < u - p := by linarith
    have hwx : u - p ≤ x := by linarith
    have hwy : u - p ≤ y := by linarith
    simp only [tax_loop, min_eq_right hwx, min_eq_right hwy,
      if_neg (not_le.mpr hw)]
    exact ih _ _ _ (by linarith) (by linarith)

/-- C8: for every schedule whose brackets strictly increase and whose final
bracket has the finite upper limit `L`, and every income strictly greater
than `L`, the loop terminates normally and taxes only the income up to `L`:
the total tax equals the total tax at income `L`, so the part of the income
above `L` contributes nothing, and the returned effective rate is that fixed
tax divided by the income. -/
theorem claim_C8_finite_schedule_saturates (sched : TaxSchedule) (L income : ℚ)
    (hf : FiniteIncrTo 0 sched L) (hLi : L < income) :
    tax_loop sched 0 (some 0) income = tax_loop sched 0 (some 0) L
    ∧ TaxManager.get_effective_tax_rate income sched =
        tax_loop sched 0 (some 0) L / income := by
  have hL0 : 0 < L := by simpa using hf.lt
  have h1 : tax_loop sched 0 (some 0) income = tax_loop sched 0 (some 0) L :=
    tax_loop_finite_saturates hf 0 income L (by linarith) (by linarith)
  refine ⟨h1, ?_⟩
  simp only [TaxManager.get_effective_tax_rate, if_pos (by linarith : (0:ℚ) < income)]
  rw [h1]

/-- Witness for C8: schedule `[(10, 0.10)]` ends at the finite limit `10`;
at income `20` the rate is the fixed tax `1` divided by `20`. -/
theorem claim_C8_witness :
    FiniteIncrTo 0 [⟨some 10, 10/100⟩] 10
    ∧ (10 : ℚ) < 20
    ∧ tax_loop [⟨some 10, 10/100⟩] 0 (some 0) 20 = tax_loop [⟨some 10, 10/100⟩] 0 (some 0) 10
    ∧ TaxManager.get_effective_tax_rate 20 [⟨some 10, 10/100⟩] =
        tax_loop [⟨some 10, 10/100⟩] 0 (some 0) 10 / 20 := by
  have hf : FiniteIncrTo 0 [⟨some 10, 10/100⟩] 10 :=
    FiniteIncrTo.single _ _ _ (by norm_num)
  obtain ⟨h1, h2⟩ := claim_C8_finite_schedule_saturates _ 10 20 hf (by norm_num)
  exact ⟨hf, by norm_num, h1, h2⟩

/-! ### Stacked schedules and the simulator step -/

/-- The fold in `get_income_tax_rate` with a general accumulator. -/
theorem foldl_add_map (f : TaxSchedule → ℚ) (l : List TaxSchedule) (a : ℚ) :
    l.foldl (fun acc s => acc + f s) a = a + (l.map f).sum := by
  induction l generalizing a with
  | nil => simp
  | cons s rest ih =>
    simp only [List.foldl_cons, List.map_cons, List.sum_cons, ih]
    ring

/-- The rate `get_income_tax_rate` returns is the sum of the per-schedule effective rates. -/
theorem get_income_tax_rate_eq_sum (tm : TaxManager) (income : ℚ) :
    tm.get_income_tax_rate income =
      (tm.income_tax_schedules.map
        (fun s => TaxManager.get_effective_tax_rate income s)).sum := by
  unfold TaxManager.get_income_tax_rate
  rw [foldl_add_map]
  ring

/-- C2: for every income and tax configuration, the combined rate of
`get_income_tax_rate` is the sum of `get_effective_tax_rate` over the
configuration's schedules; for a two-schedule configuration `[A, B]` it is
the rate under `A` plus the rate under `B`. -/
theorem claim_C2_stacking_additive (tm : TaxManager) (income : ℚ) :
    tm.get_income_tax_rate income =
      (tm.income_tax_schedules.map
        (fun s => TaxManager.get_effective_tax_rate income s)).sum
    ∧ ∀ (loc : String) (A B : TaxSchedule),
        TaxManager.get_income_tax_rate ⟨loc, [A, B]⟩ income =
          TaxManager.get_effective_tax_rate income A +
            TaxManager.get_effective_tax_rate income B := by
  refine ⟨get_income_tax_rate_eq_sum tm income, fun loc A B => ?_⟩
  rw [get_income_tax_rate_eq_sum]
  simp

/-- C1: one `simulate_year` call adds market growth on the pre-income
balance plus the net income `(s+b+e)·(1-r) + s·m + a`, where `r` is the sum
of the per-schedule effective rates at gross income `s+b+e`; the year
counter increases by exactly `1`; and the call returns the post-call
wealth. -/
theorem claim_C1_simulate_year_update (wc : WealthCalculator)
    (comp : CompensationPackage) :
    ((wc.simulate_year comp).1.current_wealth =
        wc.current_wealth + wc.current_wealth * wc.assumed_real_market_growth
          + (comp.salary + comp.bonus + comp.rsu_grant)
              * (1 - (comp.tax_manager.income_tax_schedules.map
                  (fun s => TaxManager.get_effective_tax_rate
                    (comp.salary + comp.bonus + comp.rsu_grant) s)).sum)
          + comp.salary * comp.retirement_match_percentage
          + comp.income_adjustment)
    ∧ (wc.simulate_year comp).1.year = wc.year + 1
    ∧ (wc.simulate_year comp).2 = (wc.simulate_year comp).1.current_wealth := by
  refine ⟨?_, rfl, rfl⟩
  simp only [WealthCalculator.simulate_year]
  rw [get_income_tax_rate_eq_sum]
  ring

/-! ### History bookkeeping (C7, C9, C10) -/

/-- When the key is absent, Python dict assignment appends the pair. -/
theorem dict_set_append {α : Type} (l : List (Int × α)) (k : Int) (v : α)
    (h : ∀ kv ∈ l, kv.1 ≠ k) : dict_set l k v = l ++ [(k, v)] := by
  induction l with
  | nil => rfl
  | cons kv rest ih =>
    rcases kv with ⟨k', v'⟩
    have hk : k' ≠ k := h (k', v') (List.mem_cons_self _ _)
    simp only [dict_set, if_neg hk, List.cons_append]
    rw [ih (fun x hx => h x (List.mem_cons_of_mem _ hx))]

/-- Reading a key straight after writing it returns the written value. -/
theorem dict_get_set {α : Type} (l : List (Int × α)) (k : Int) (v : α) :
    dict_get (dict_set l k v) k = some v := by
  induction l with
  | nil => simp [dict_set, dict_get]
  | cons kv rest ih =>
    rcases kv with ⟨k', v'⟩
    by_cases hk : k' = k
    · simp [dict_set, dict_get, hk]
    · simp [dict_set, dict_get, hk, ih]

/-- All keys of both history dicts are below the current year counter.
Every reachable `WealthCalculator` state satisfies this. -/
def HistKeysLt (wc : WealthCalculator) : Prop :=
  (∀ kv ∈ wc.annual_history, kv.1 < wc.year) ∧
  (∀ kv ∈ wc.compensation_history, kv.1 < wc.year)

/-- One `simulate_year` call: the year advances by one, the key invariant is
preserved, and each history is extended by exactly one entry keyed by the
pre-call year. -/
theorem simulate_year_histories (wc : WealthCalculator) (comp : CompensationPackage)
    (h : HistKeysLt wc) :
    (wc.simulate_year comp).1.year = wc.year + 1
    ∧ HistKeysLt (wc.simulate_year comp).1
    ∧ (∃ yd, (wc.simulate_year comp).1.annual_history
        = wc.annual_history ++ [(wc.year, yd)])
    ∧ ∃ cd, (wc.simulate_year comp).1.compensation_history
        = wc.compensation_history ++ [(wc.year, cd)] := by
  obtain ⟨ha, hc⟩ := h
  have hna : ∀ kv ∈ wc.annual_history, kv.1 ≠ wc.year :=
    fun kv hkv => ne_of_lt (ha kv hkv)
  have hnc : ∀ kv ∈ wc.compensation_history, kv.1 ≠ wc.year :=
    fun kv hkv => ne_of_lt (hc kv hkv)
  refine ⟨rfl, ⟨?_, ?_⟩, ?_, ?_⟩
  · intro kv hkv
    simp only [WealthCalculator.simulate_year] at hkv ⊢
    rw [dict_set_append _ _ _ hna] at hkv
    rcases List.mem_append.mp hkv with h1 | h1
    · exact lt_trans (ha kv h1) (by omega)
    · simp only [List.mem_singleton] at h1
      subst h1
      omega
  · intro kv hkv
    simp only [WealthCalculator.simulate_year] at hkv ⊢
    rw [dict_set_append _ _ _ hnc] at hkv
    rcases List.mem_append.mp hkv with h1 | h1
    · exact lt_trans (hc kv h1) (by omega)
    · simp only [List.mem_singleton] at h1
      subst h1
      omega
  · simp only [WealthCalculator.simulate_year]
    exact ⟨_, dict_set_append _ _ _ hna⟩
  · simp only [WealthCalculator.simulate_year]
    exact ⟨_, dict_set_append _ _ _ hnc⟩

/-- Shifting a consecutive run of years by one. -/
theorem range_map_shift (n : ℕ) (y : Int) :
    (List.range (n + 1)).map (fun i : ℕ => y + (i : Int))
      = y :: (List.range n).map (fun i : ℕ => y + 1 + (i : Int)) := by
  rw [List.range_succ_eq_map, List.map_cons, List.map_map]
  congr 1
  · simp
  · refine List.map_congr_left fun i _ => ?_
    simp only [Function.comp_apply]
    push_cast
    ring

/-- Running the simulator over a list of packages: the year advances by the
number of packages, the key invariant is preserved, and each history view
gains exactly one entry per package, keyed by the consecutive years starting
at the pre-run year counter. -/
theorem simulate_years_histories (comps : List CompensationPackage) :
    ∀ wc : WealthCalculator, HistKeysLt wc →
      (simulate_years wc comps).year = wc.year + comps.length
      ∧ HistKeysLt (simulate_years wc comps)
      ∧ (∃ t, (simulate_years wc comps).annual_history = wc.annual_history ++ t
          ∧ t.map Prod.fst = (List.range comps.length).map (fun i : ℕ => wc.year + (i : Int)))
      ∧ ∃ t, (simulate_years wc comps).compensation_history
            = wc.compensation_history ++ t
          ∧ t.map Prod.fst = (List.range comps.length).map (fun i : ℕ => wc.year + (i : Int)) := by
  induction comps with
  | nil =>
    intro wc h
    exact ⟨by simp [simulate_years], h,
      ⟨[], by simp [simulate_years], by simp⟩,
      ⟨[], by simp [simulate_years], by simp⟩⟩
  | cons c rest ih =>
    intro wc h
    obtain ⟨hyr1, hinv1, ⟨yd, hann1⟩, ⟨cd, hcomp1⟩⟩ := simulate_year_histories wc c h
    obtain ⟨hyr, hinv, ⟨t, ht, htk⟩, ⟨t2, ht2, htk2⟩⟩ := ih (wc.simulate_year c).1 hinv1
    have hstep : simulate_years wc (c :: rest) = simulate_years (wc.simulate_year c).1 rest := rfl
    refine ⟨?_, by rw [hstep]; exact hinv, ⟨(wc.year, yd) :: t, ?_, ?_⟩,
      ⟨(wc.year, cd) :: t2, ?_, ?_⟩⟩
    · rw [hstep, hyr, hyr1]
      simp only [List.length_cons]
      push_cast
      ring
    · rw [hstep, ht, hann1, List.append_assoc, List.singleton_append]
    · simp only [List.map_cons, List.length_cons]
      rw [htk, hyr1, range_map_shift]
    · rw [hstep, ht2, hcomp1, List.append_assoc, List.singleton_append]
    · simp only [List.map_cons, List.length_cons]
      rw [htk2, hyr1, range_map_shift]

/-- C7: starting from a freshly constructed calculator at initial year `y0`,
after the calls for `comps` (N of them) both history views hold exactly N
entries keyed by the consecutive years `y0, …, y0+N-1`; any further calls
(`more`) only append to both histories, leaving every previously recorded
entry in place. -/
theorem claim_C7_history_append_only (w0 : ℚ) (y0 : Int) (g : ℚ)
    (comps more : List CompensationPackage) :
    ((simulate_years (WealthCalculator.init w0 y0 g) comps).annual_history.length
        = comps.length)
    ∧ ((simulate_years (WealthCalculator.init w0 y0 g) comps).compensation_history.length
        = comps.length)
    ∧ ((simulate_years (WealthCalculator.init w0 y0 g) comps).annual_history.map Prod.fst
        = (List.range comps.length).map (fun i : ℕ => y0 + (i : Int)))
    ∧ ((simulate_years (WealthCalculator.init w0 y0 g) comps).compensation_history.map Prod.fst
        = (List.range comps.length).map (fun i : ℕ => y0 + (i : Int)))
    ∧ (∃ t, (simulate_years (simulate_years (WealthCalculator.init w0 y0 g) comps) more).annual_history
        = (simulate_years (WealthCalculator.init w0 y0 g) comps).annual_history ++ t)
    ∧ ∃ t, (simulate_years (simulate_years (WealthCalculator.init w0 y0 g) comps) more).compensation_history
        = (simulate_years (WealthCalculator.init w0 y0 g) comps).compensation_history ++ t := by
  have hinv0 : HistKeysLt (WealthCalculator.init w0 y0 g) := by
    constructor <;> intro kv hkv <;> simp [WealthCalculator.init] at hkv
  obtain ⟨hyr, hinv, ⟨t, ht, htk⟩, ⟨t2, ht2, htk2⟩⟩ :=
    simulate_years_histories comps _ hinv0
  obtain ⟨_, _, ⟨t3, ht3, _⟩, ⟨t4, ht4, _⟩⟩ := simulate_years_histories more _ hinv
  have hann : (simulate_years (WealthCalculator.init w0 y0 g) comps).annual_history = t := by
    simpa [WealthCalculator.init] using ht
  have hcomp : (simulate_years (WealthCalculator.init w0 y0 g) comps).compensation_history = t2 := by
    simpa [WealthCalculator.init] using ht2
  have hy0 : (WealthCalculator.init w0 y0 g).year = y0 := rfl
  rw [hy0] at htk htk2
  refine ⟨?_, ?_, ?_, ?_, ⟨t3, ht3⟩, ⟨t4, ht4⟩⟩
  · rw [hann, ← List.length_map t Prod.fst, htk, List.length_map, List.length_range]
  · rw [hcomp, ← List.length_map t2 Prod.fst, htk2, List.length_map, List.length_range]
  · rw [hann, htk]
  · rw [hcomp, htk2]

/-- The compensation-view column set exactly as the claim states it (spec
§6).  This definition follows the spec's words, to be compared with the keys
the code's `to_dict` produces. -/
def spec_compensation_columns : List String :=
  ["Company", "Title", "Location", "Salary", "Bonus", "Retirement-Match-%",
   "Equity Grant", "Effective Tax Rate", "Income Adjustment", "Comment"]

/-- A sample compensation package used as the concrete input of the C9
counterexample. -/
def sample_package : CompensationPackage :=
  { company := "A", title := "t", salary := 1, tax_manager := ⟨"X", []⟩ }

/-- Counterexample to C9 as stated: the row the code records uses the column
names "RSU Grant" and "Retirement Match %"; in particular the spec's
"Equity Grant" column is absent, so the column set is not the one the claim
lists. -/
theorem claim_C9_counterexample :
    sample_package.to_dict.map Prod.fst
      = ["Company", "Title", "Location", "Salary", "Bonus", "Retirement Match %",
         "RSU Grant", "Effective Tax Rate", "Income Adjustment", "Comment"]
    ∧ "Equity Grant" ∈ spec_compensation_columns
    ∧ "Equity Grant" ∉ sample_package.to_dict.map Prod.fst
    ∧ ¬ (∀ c, c ∈ sample_package.to_dict.map Prod.fst
        ↔ c ∈ spec_compensation_columns) := by
  refine ⟨rfl, by simp [spec_compensation_columns], ?_, ?_⟩
  · simp [sample_package, CompensationPackage.to_dict]
  · intro hiff
    have h := (hiff "Equity Grant").mpr (by simp [spec_compensation_columns])
    simp [sample_package, CompensationPackage.to_dict] at h

/-- C9 (amended): for every simulated year, the compensation view's row
recorded for that year is `comp.to_dict`, and its column list is exactly
[Company, Title, Location, Salary, Bonus, Retirement Match %, RSU Grant,
Effective Tax Rate, Income Adjustment, Comment] — the code's names, where
the claim's "Retirement-Match-%" and "Equity Grant" columns are actually
called "Retirement Match %" and "RSU Grant". -/
theorem claim_C9_compensation_columns (wc : WealthCalculator)
    (comp : CompensationPackage) :
    dict_get (wc.simulate_year comp).1.compensation_history wc.year = some comp.to_dict
    ∧ comp.to_dict.map Prod.fst
      = ["Company", "Title", "Location", "Salary", "Bonus", "Retirement Match %",
         "RSU Grant", "Effective Tax Rate", "Income Adjustment", "Comment"] := by
  constructor
  · simp only [WealthCalculator.simulate_year]
    exact dict_get_set _ _ _
  · rfl

/-- C10: a `simulate_year` call leaves `assumed_real_market_growth`
unchanged (beyond wealth, year and the two histories nothing in the state
changes; the `comp` argument, its tax manager and its schedules are only
read, which is what makes this pure embedding of the call faithful), and the
value recorded under "Total Earned Wealth" in that year's snapshot equals
the wealth value the call returns, which is the new `current_wealth`. -/
theorem claim_C10_frame (wc : WealthCalculator) (comp : CompensationPackage) :
    (wc.simulate_year comp).1.assumed_real_market_growth = wc.assumed_real_market_growth
    ∧ (∃ yd, dict_get (wc.simulate_year comp).1.annual_history wc.year = some yd
        ∧ sdict_get yd "Total Earned Wealth" = some (.num (wc.simulate_year comp).2))
    ∧ (wc.simulate_year comp).1.current_wealth = (wc.simulate_year comp).2 := by
  refine ⟨rfl, ?_, rfl⟩
  simp only [WealthCalculator.simulate_year]
  refine ⟨_, dict_get_set _ _ _, ?_⟩
  simp [sdict_get]
